import Mathlib

/-!
Verification development for the Drive-scrapper document summarizer.

The Python application (src/app) is shallowly embedded below:

* `main.py` — the background pipeline orchestrator `_run_pipeline`, the
  job-control route `process_files`, and the shared in-memory state
  (`_processing_status`, `_summaries`, `_stop_requested`).  The worker's
  lock-guarded mutations are modelled as an explicit sequence of atomic
  steps on an `AppState`; the states after each atomic step form the
  trace a concurrent reader may observe.
* `drive_service.py` — the paginated `list_files` loop with its
  duplicate guard and `MAX_FILES_CAP` safety cap.  The remote Drive API
  is modelled as the finite sequence of page responses it returns.
* `summary_service.py` — `_chunk_text` (sentence-boundary chunking) and
  `summarize_text` (empty-input placeholder, single- and multi-chunk
  Groq calls).  Python strings are modelled as `String` / `List Char`;
  the remote Groq call is an oracle `String → Except String String`
  and the number of remote calls performed is returned alongside the
  result.

External failures (Google API errors, parser errors, Groq errors) are
modelled with `Except` / an explicit outcome type; uncaught faults that
escape the per-item `except Exception` handler are modelled by the
`ItemOutcome.fault` constructor.
-/

/-! ## Data model (main.py) -/

/-- An entry of the list returned by `drive_service.list_files` as consumed
by `_run_pipeline` (fields `id` and `name` are the ones read). -/
structure FileInfo where
  id : String
  name : String
deriving DecidableEq, Repr

/-- One row of `_summaries`: `{"file_name": ..., "summary": ...}`. -/
structure ResultRecord where
  file_name : String
  summary : String
deriving DecidableEq, Repr

/-- The `_processing_status` dict of main.py. -/
structure ProcessingStatus where
  is_running : Bool
  total : Nat
  completed : Nat
  current_file : String
  stopped : Bool
deriving DecidableEq, Repr

/-- The mutable process-wide state touched by the worker: the status dict
and the shared `_summaries` list. -/
structure AppState where
  status : ProcessingStatus
  summaries : List ResultRecord
deriving DecidableEq, Repr

/-- Outcome of running one document through
`download_file` → `extract_text` → `summarize_text`:
`ok` — the summarizer returned a record with this summary text;
`err` — an `Exception` was raised and caught by the per-item handler;
`fault` — an exception escaping the per-item `except Exception` clause
(it unwinds to the top-level handler of `_run_pipeline`). -/
inductive ItemOutcome where
  | ok (summary : String)
  | err (msg : String)
  | fault (msg : String)
deriving DecidableEq, Repr

/-- The record appended to the local `results` accumulator for one
document, if any: a success row, or the per-item error row
`{"file_name": name, "summary": f"Error: {exc}"}`; `none` when the
fault escapes the per-item handler. -/
def itemRecord (process : FileInfo → ItemOutcome) (f : FileInfo) : Option ResultRecord :=
  match process f with
  | .ok s => some ⟨f.name, s⟩
  | .err m => some ⟨f.name, "Error: " ++ m⟩
  | .fault _ => none

/-- Result of the per-document loop of `_run_pipeline`:
`snaps` — the values of `_processing_status` after each lock-guarded
mutation performed inside the loop, in order; `final` — the status when
the loop is exited; `results` — the local accumulator; `faulted` — true
iff an uncaught fault aborted the loop. -/
structure LoopOut where
  snaps : List ProcessingStatus
  final : ProcessingStatus
  results : List ResultRecord
  faulted : Bool
deriving DecidableEq, Repr

/-- The `for file_info in files:` loop of `_run_pipeline`.  `stopSet i`
is the value `_stop_requested.is_set()` observed at the check performed
before item `i` (0-based).  Mirrors main.py lines 95–121: check the stop
flag (break with `stopped = True`), publish `current_file`, run the item,
append the success or error row, publish `completed = len(results)`. -/
def loopRun (process : FileInfo → ItemOutcome) (stopSet : Nat → Bool) :
    List FileInfo → Nat → List ResultRecord → ProcessingStatus → LoopOut
  | [], _i, results, ps => ⟨[], ps, results, false⟩
  | f :: rest, i, results, ps =>
    if stopSet i then
      ⟨[{ ps with stopped := true }], { ps with stopped := true }, results, false⟩
    else
      let ps1 := { ps with current_file := f.name }
      match itemRecord process f with
      | some r =>
        let results' := results ++ [r]
        let ps2 := { ps1 with completed := results'.length }
        let out := loopRun process stopSet rest (i + 1) results' ps2
        ⟨ps1 :: ps2 :: out.snaps, out.final, out.results, out.faulted⟩
      | none => ⟨[ps1], ps1, results, true⟩

/-- The `finally:` block of `_run_pipeline`: set `is_running = False` and
clear `current_file` (lines 130–133). -/
def finalize (a : AppState) : AppState :=
  { a with status := { a.status with is_running := false, current_file := "" } }

/-- The atomic state mutations performed by the body of `_run_pipeline`
(everything inside the `try:`), as the list of states after each step.
`listing` is the outcome of `drive_service.list_files`; `.error` covers
a listing failure caught by the top-level handler.  Cases mirror the
source: empty listing returns early after setting `is_running = False`,
`stopped = False`; otherwise `total` is published, the loop runs, and —
only when no fault escaped the loop — `_summaries` is replaced by
`_summaries.clear()` (one step, without the lock) followed by
`_summaries.extend(results)` (a second step, without the lock). -/
def pipelineBody (listing : Except String (List FileInfo)) (process : FileInfo → ItemOutcome)
    (stopSet : Nat → Bool) (st : AppState) : List AppState :=
  match listing with
  | .error _ => []
  | .ok files =>
    if files.isEmpty then
      [{ st with status := { st.status with is_running := false, stopped := false } }]
    else
      let st1 : AppState := { st with status := { st.status with total := files.length } }
      let out := loopRun process stopSet files 0 [] st1.status
      let loopStates := st1 :: out.snaps.map (fun ps => { st1 with status := ps })
      if out.faulted then loopStates
      else loopStates ++ [⟨out.final, []⟩, ⟨out.final, out.results⟩]

/-- All states a concurrent reader may observe during one call of
`_run_pipeline`: the initial state, the states after each atomic step of
the body, and the state after the `finally:` block. -/
def pipelineStates (listing : Except String (List FileInfo)) (process : FileInfo → ItemOutcome)
    (stopSet : Nat → Bool) (st : AppState) : List AppState :=
  let body := pipelineBody listing process stopSet st
  st :: body ++ [finalize (body.getLastD st)]

/-- The state left behind by one call of `_run_pipeline`: the last state
of the body with the `finally:` block applied on top. -/
def runPipeline (listing : Except String (List FileInfo)) (process : FileInfo → ItemOutcome)
    (stopSet : Nat → Bool) (st : AppState) : AppState :=
  finalize ((pipelineBody listing process stopSet st).getLastD st)

/-- Whether the call of `_run_pipeline` reached its top-level
`except Exception` handler: the listing call raised, or an uncaught
fault escaped the per-document loop. -/
def runFaulted (listing : Except String (List FileInfo)) (process : FileInfo → ItemOutcome)
    (stopSet : Nat → Bool) (st : AppState) : Bool :=
  match listing with
  | .error _ => true
  | .ok files =>
    if files.isEmpty then false
    else (loopRun process stopSet files 0 [] { st.status with total := files.length }).faulted

/-! ## Job control surface (`process_files`, main.py lines 249–274) -/

/-- Abstract outcome of a `POST /process` request: rejected for missing
credentials (401), redirected without starting because a run is active,
or started (state reset and worker thread dispatched). -/
inductive StartOutcome where
  | notAuthenticated
  | alreadyRunning
  | started
deriving DecidableEq, Repr

/-- Effect of one `process_files` call: its outcome, the job state and
stop-flag value after the call, and whether a worker thread was
dispatched. -/
structure StartResult where
  outcome : StartOutcome
  state : AppState
  stopFlag : Bool
  dispatched : Bool
deriving DecidableEq, Repr

/-- The `_processing_status` contents written by the reset block of
`process_files` (lines 264–269). -/
def startedStatus : ProcessingStatus :=
  ⟨true, 0, 0, "Listing files…", false⟩

/-- `process_files` (main.py lines 249–274): reject when no credentials
are stored; return without touching anything when `is_running` is true;
otherwise clear `_stop_requested`, reset the status fields and dispatch
the worker thread. -/
def process_files (hasCredentials : Bool) (st : AppState) (stopFlag : Bool) : StartResult :=
  if !hasCredentials then ⟨.notAuthenticated, st, stopFlag, false⟩
  else if st.status.is_running then ⟨.alreadyRunning, st, stopFlag, false⟩
  else ⟨.started, { st with status := startedStatus }, false, true⟩

/-! ## Generic list helpers -/

theorem getLastD_cons_eq {α : Type} (a d : α) (l : List α) :
    (a :: l).getLastD d = l.getLastD a := by
  cases l <;> simp [List.getLastD]

theorem getLastD_pred {α : Type} {p : α → Prop} :
    ∀ (l : List α) (d : α), (∀ a ∈ l, p a) → p d → p (l.getLastD d)
  | [], _, _, hd => hd
  | a :: l, d, h, _ => by
    rw [getLastD_cons_eq]
    exact getLastD_pred l a (fun x hx => h x (List.mem_cons_of_mem _ hx))
      (h a (List.mem_cons_self _ _))

theorem filterMap_length_of_isSome {α β : Type} {g : α → Option β} :
    ∀ {l : List α}, (∀ x ∈ l, (g x).isSome) → (l.filterMap g).length = l.length
  | [], _ => rfl
  | a :: l, h => by
    obtain ⟨b, hb⟩ := Option.isSome_iff_exists.mp (h a (List.mem_cons_self _ _))
    rw [List.filterMap_cons, hb]
    simp only [List.length_cons]
    rw [filterMap_length_of_isSome (fun x hx => h x (List.mem_cons_of_mem _ hx))]

/-! ## Unfolding lemmas for `runPipeline` -/

/-- A listing failure reaches the top-level handler: only the
`finally:` block runs. -/
theorem runPipeline_error (e : String) (process : FileInfo → ItemOutcome)
    (stopSet : Nat → Bool) (st : AppState) :
    runPipeline (.error e) process stopSet st = finalize st := rfl

/-- Empty listing: the early-return branch, then the `finally:` block. -/
theorem runPipeline_nil (process : FileInfo → ItemOutcome)
    (stopSet : Nat → Bool) (st : AppState) :
    runPipeline (.ok []) process stopSet st =
      finalize { st with status := { st.status with is_running := false, stopped := false } } := rfl

/-- Non-empty listing without an escaping fault: the loop output is
committed to `_summaries` and the `finally:` block runs on top. -/
theorem runPipeline_commit (process : FileInfo → ItemOutcome) (stopSet : Nat → Bool)
    (st : AppState) (files : List FileInfo) (hne : files ≠ [])
    (hok : (loopRun process stopSet files 0 [] { st.status with total := files.length }).faulted
      = false) :
    runPipeline (.ok files) process stopSet st =
      finalize ⟨(loopRun process stopSet files 0 [] { st.status with total := files.length }).final,
        (loopRun process stopSet files 0 [] { st.status with total := files.length }).results⟩ := by
  unfold runPipeline pipelineBody
  simp only [List.isEmpty_eq_false.mpr hne, if_false, hok, Bool.false_eq_true]
  rw [show (st1 : AppState) → ∀ l c e, (st1 :: l ++ [c, e] : List AppState)
      = (st1 :: l ++ [c]) ++ [e] from fun _ _ _ _ => by simp]
  rw [List.getLastD_concat]

/-! ## Claim C7 — empty listing -/

/-- C7: for every run in which listing returns an empty document list,
the run finalizes with `is_running = false` and `stopped = false`, no
failure reaches the top-level handler, and the shared `_summaries` list
is left unchanged (not cleared, not replaced). -/
theorem run_empty_listing (process : FileInfo → ItemOutcome) (stopSet : Nat → Bool)
    (st : AppState) :
    runPipeline (.ok []) process stopSet st =
      { st with status :=
        { st.status with is_running := false, stopped := false, current_file := "" } } ∧
    (runPipeline (.ok []) process stopSet st).summaries = st.summaries ∧
    runFaulted (.ok []) process stopSet st = false :=
  ⟨rfl, rfl, rfl⟩

/-! ## Claim C6 — AlreadyRunning guard -/

/-- C6: a `process_files` call made while `is_running` is true returns
the already-running outcome and changes nothing: the job state and the
stop flag keep their prior values and no worker thread is dispatched. -/
theorem start_while_running (st : AppState) (stopFlag : Bool)
    (h : st.status.is_running = true) :
    process_files true st stopFlag = ⟨.alreadyRunning, st, stopFlag, false⟩ := by
  simp [process_files, h]

/-- Witness for C6 at a concrete mid-run state. -/
theorem start_while_running_witness :
    process_files true ⟨⟨true, 5, 2, "doc.pdf", false⟩, [⟨"a", "sa"⟩]⟩ true =
      ⟨.alreadyRunning, ⟨⟨true, 5, 2, "doc.pdf", false⟩, [⟨"a", "sa"⟩]⟩, true, false⟩ :=
  start_while_running ⟨⟨true, 5, 2, "doc.pdf", false⟩, [⟨"a", "sa"⟩]⟩ true rfl

/-! ## Claim C5 — finalization always runs; faults do not commit -/

/-- C5: every run ends with `is_running = false` and `current_file`
cleared (the `finally:` block), and a run in which an unexpected fault
reached the top-level handler — a listing failure or a fault escaping
the per-item loop, which in the source always happens before the commit
step — leaves `_summaries` exactly as it was before the run. -/
theorem run_finalizes_on_fault (listing : Except String (List FileInfo))
    (process : FileInfo → ItemOutcome) (stopSet : Nat → Bool) (st : AppState)
    (h : runFaulted listing process stopSet st = true) :
    (runPipeline listing process stopSet st).status.is_running = false ∧
    (runPipeline listing process stopSet st).status.current_file = "" ∧
    (runPipeline listing process stopSet st).summaries = st.summaries := by
  refine ⟨rfl, rfl, ?_⟩
  cases listing with
  | error e => rfl
  | ok files =>
    unfold runFaulted at h
    by_cases hemp : files.isEmpty
    · simp [hemp] at h
    · show (finalize ((pipelineBody (.ok files) process stopSet st).getLastD st)).summaries
        = st.summaries
      have hbody : ∀ a ∈ pipelineBody (.ok files) process stopSet st,
          a.summaries = st.summaries := by
        unfold pipelineBody
        simp only [hemp, if_false, if_pos (by simpa [hemp] using h)]
        intro a ha
        rcases List.mem_cons.mp ha with rfl | ha
        · rfl
        · obtain ⟨ps, _, rfl⟩ := List.mem_map.mp ha
          rfl
      exact getLastD_pred _ st hbody rfl

/-- Witness for C5: a run whose listing call fails leaves the previous
run's two result rows untouched and finalizes the status flags. -/
theorem run_finalizes_on_fault_witness :
    (runPipeline (.error "HttpError 401") (fun _ => .ok "s") (fun _ => false)
      ⟨startedStatus, [⟨"a", "sa"⟩, ⟨"b", "sb"⟩]⟩).status.is_running = false ∧
    (runPipeline (.error "HttpError 401") (fun _ => .ok "s") (fun _ => false)
      ⟨startedStatus, [⟨"a", "sa"⟩, ⟨"b", "sb"⟩]⟩).status.current_file = "" ∧
    (runPipeline (.error "HttpError 401") (fun _ => .ok "s") (fun _ => false)
      ⟨startedStatus, [⟨"a", "sa"⟩, ⟨"b", "sb"⟩]⟩).summaries = [⟨"a", "sa"⟩, ⟨"b", "sb"⟩] :=
  run_finalizes_on_fault (.error "HttpError 401") (fun _ => .ok "s") (fun _ => false)
    ⟨startedStatus, [⟨"a", "sa"⟩, ⟨"b", "sb"⟩]⟩ rfl

/-! ## Claim C2 — per-item failure is converted to an error row -/

/-- C2: when the stop flag is not observed and the item processing of a
document raises an exception caught by the per-item handler, the loop
appends the row whose summary is the string "Error: " followed by the
exception text, publishes `completed = len(results) + 1` for it, and
continues with the remaining documents — the rest of the run is exactly
the loop restarted on the remaining list. -/
theorem item_error_continues (process : FileInfo → ItemOutcome) (stopSet : Nat → Bool)
    (f : FileInfo) (rest : List FileInfo) (i : Nat) (results : List ResultRecord)
    (ps : ProcessingStatus) (m : String)
    (hstop : stopSet i = false) (herr : process f = .err m) :
    loopRun process stopSet (f :: rest) i results ps =
      ⟨{ ps with current_file := f.name } ::
        { ps with current_file := f.name, completed := results.length + 1 } ::
        (loopRun process stopSet rest (i + 1) (results ++ [⟨f.name, "Error: " ++ m⟩])
          { ps with current_file := f.name, completed := results.length + 1 }).snaps,
      (loopRun process stopSet rest (i + 1) (results ++ [⟨f.name, "Error: " ++ m⟩])
          { ps with current_file := f.name, completed := results.length + 1 }).final,
      (loopRun process stopSet rest (i + 1) (results ++ [⟨f.name, "Error: " ++ m⟩])
          { ps with current_file := f.name, completed := results.length + 1 }).results,
      (loopRun process stopSet rest (i + 1) (results ++ [⟨f.name, "Error: " ++ m⟩])
          { ps with current_file := f.name, completed := results.length + 1 }).faulted⟩ := by
  simp [loopRun, hstop, itemRecord, herr]

/-- Witness for C2: a failing middle document in a three-document run
produces the inline error row and the run completes all three. -/
theorem item_error_continues_witness :
    loopRun (fun f => if f.name = "b" then .err "boom" else .ok "S") (fun _ => false)
      [⟨"2", "b"⟩, ⟨"3", "c"⟩] 1 [⟨"a", "S"⟩] ⟨true, 3, 1, "a", false⟩ =
      ⟨⟨true, 3, 1, "b", false⟩ :: ⟨true, 3, 2, "b", false⟩ ::
        (loopRun (fun f => if f.name = "b" then .err "boom" else .ok "S") (fun _ => false)
          [⟨"3", "c"⟩] 2 [⟨"a", "S"⟩, ⟨"b", "Error: boom"⟩] ⟨true, 3, 2, "b", false⟩).snaps,
      (loopRun (fun f => if f.name = "b" then .err "boom" else .ok "S") (fun _ => false)
          [⟨"3", "c"⟩] 2 [⟨"a", "S"⟩, ⟨"b", "Error: boom"⟩] ⟨true, 3, 2, "b", false⟩).final,
      (loopRun (fun f => if f.name = "b" then .err "boom" else .ok "S") (fun _ => false)
          [⟨"3", "c"⟩] 2 [⟨"a", "S"⟩, ⟨"b", "Error: boom"⟩] ⟨true, 3, 2, "b", false⟩).results,
      (loopRun (fun f => if f.name = "b" then .err "boom" else .ok "S") (fun _ => false)
          [⟨"3", "c"⟩] 2 [⟨"a", "S"⟩, ⟨"b", "Error: boom"⟩] ⟨true, 3, 2, "b", false⟩).faulted⟩ :=
  item_error_continues (fun f => if f.name = "b" then .err "boom" else .ok "S") (fun _ => false)
    ⟨"2", "b"⟩ [⟨"3", "c"⟩] 1 [⟨"a", "S"⟩] ⟨true, 3, 1, "a", false⟩ "boom" rfl rfl

/-! ## Claim C1 — cooperative cancellation keeps the first N results -/

/-- Behaviour of the per-document loop when the stop flag is first
observed at the check before item `N` (0-based, counting from check
index `i`): the first `N` documents' rows are appended, no fault occurs,
`stopped` is published and the counters are left at `N` rows. -/
theorem loopRun_stop (process : FileInfo → ItemOutcome) (stopSet : Nat → Bool) :
    ∀ (files : List FileInfo) (N i : Nat) (results : List ResultRecord)
      (ps : ProcessingStatus),
      N < files.length →
      (∀ j, j < N → stopSet (i + j) = false) →
      stopSet (i + N) = true →
      (∀ f ∈ files.take N, (itemRecord process f).isSome) →
      (loopRun process stopSet files i results ps).results
          = results ++ (files.take N).filterMap (itemRecord process) ∧
      (loopRun process stopSet files i results ps).faulted = false ∧
      (loopRun process stopSet files i results ps).final.stopped = true ∧
      (loopRun process stopSet files i results ps).final.total = ps.total ∧
      (loopRun process stopSet files i results ps).final.is_running = ps.is_running ∧
      (loopRun process stopSet files i results ps).final.completed
          = if N = 0 then ps.completed else results.length + N := by
  intro files
  induction files with
  | nil =>
    intro N i results ps hN
    exact absurd hN (by simp)
  | cons f rest ih =>
    intro N i results ps hN hbefore hat hrec
    cases N with
    | zero =>
      have h0 : stopSet i = true := by simpa using hat
      simp [loopRun, h0]
    | succ N' =>
      have h0 : stopSet i = false := by simpa using hbefore 0 (Nat.succ_pos _)
      have hf : (itemRecord process f).isSome := hrec f (by simp [List.take_succ_cons])
      obtain ⟨r, hr⟩ := Option.isSome_iff_exists.mp hf
      have IH := ih N' (i + 1) (results ++ [r])
        { ps with current_file := f.name, completed := (results ++ [r]).length }
        (by simpa using hN)
        (fun j hj => by
          rw [show i + 1 + j = i + (j + 1) from by omega]
          exact hbefore (j + 1) (by omega))
        (by
          rw [show i + 1 + N' = i + (N' + 1) from by omega]
          exact hat)
        (fun g hg => hrec g (by simp only [List.take_succ_cons]; exact List.mem_cons_of_mem _ hg))
      obtain ⟨ihres, ihflt, ihstp, ihtot, ihrun, ihcmp⟩ := IH
      simp only [loopRun, h0, Bool.false_eq_true, if_false, hr]
      refine ⟨?_, ihflt, ihstp, by simpa using ihtot, by simpa using ihrun, ?_⟩
      · rw [ihres]
        simp [List.take_succ_cons, List.filterMap_cons, hr]
      · rw [ihcmp]
        cases N' <;> simp
        omega

/-- C1: in a run over a listed batch of `M` documents started from the
reset state, if the stop flag is first observed at the check before item
`N + 1` (all earlier checks see it unset) and each of the first `N`
documents produced a recorded row, the run finalizes with exactly those
`N` rows committed to `_summaries` in listing order, `completed = N`,
`total = M`, `stopped = true`, and the `finally` flags cleared. -/
theorem run_stopped_after_N (files : List FileInfo) (process : FileInfo → ItemOutcome)
    (stopSet : Nat → Bool) (st : AppState) (N : Nat)
    (hstart : st.status = startedStatus)
    (hN : N < files.length)
    (hbefore : ∀ j, j < N → stopSet j = false)
    (hat : stopSet N = true)
    (hrec : ∀ f ∈ files.take N, (itemRecord process f).isSome) :
    runPipeline (.ok files) process stopSet st =
      ⟨⟨false, files.length, N, "", true⟩, (files.take N).filterMap (itemRecord process)⟩ ∧
    ((files.take N).filterMap (itemRecord process)).length = N := by
  have hne : files ≠ [] := by
    intro h
    rw [h] at hN
    simp at hN
  have L := loopRun_stop process stopSet files N 0 []
    { st.status with total := files.length } hN
    (fun j hj => by simpa using hbefore j hj)
    (by simpa using hat) hrec
  obtain ⟨hres, hflt, hstp, htot, hrun, hcmp⟩ := L
  constructor
  · rw [runPipeline_commit process stopSet st files hne hflt]
    unfold finalize
    simp only [AppState.mk.injEq, ProcessingStatus.mk.injEq]
    refine ⟨⟨trivial, htot, ?_, trivial, hstp⟩, Eq.trans hres (by simp)⟩
    refine Eq.trans hcmp ?_
    rw [hstart]
    cases N <;> simp [startedStatus]
  · rw [filterMap_length_of_isSome hrec, List.length_take]
    omega

/-- Witness for C1: four documents, stop observed at the check before
the third item — the first two rows are committed, `completed = 2`,
`total = 4`, `stopped = true`. -/
theorem run_stopped_after_N_witness :
    runPipeline (.ok [⟨"1", "a"⟩, ⟨"2", "b"⟩, ⟨"3", "c"⟩, ⟨"4", "d"⟩])
        (fun f => .ok ("S" ++ f.name)) (fun i => decide (2 ≤ i))
        ⟨startedStatus, [⟨"old", "x"⟩]⟩ =
      ⟨⟨false, 4, 2, "", true⟩, [⟨"a", "Sa"⟩, ⟨"b", "Sb"⟩]⟩ ∧
    (([⟨"1", "a"⟩, ⟨"2", "b"⟩, ⟨"3", "c"⟩, ⟨"4", "d"⟩] : List FileInfo).take 2).filterMap
        (itemRecord (fun f => .ok ("S" ++ f.name))) = [⟨"a", "Sa"⟩, ⟨"b", "Sb"⟩] := by
  have H := run_stopped_after_N [⟨"1", "a"⟩, ⟨"2", "b"⟩, ⟨"3", "c"⟩, ⟨"4", "d"⟩]
    (fun f => .ok ("S" ++ f.name)) (fun i => decide (2 ≤ i))
    ⟨startedStatus, [⟨"old", "x"⟩]⟩ 2 rfl (by decide)
    (fun j hj => by
      have : j = 0 ∨ j = 1 := by omega
      rcases this with rfl | rfl <;> rfl)
    (by decide) (by decide)
  exact ⟨by rw [H.1]; rfl, rfl⟩

/-! ## Trace lemmas for the loop (used by C3 and C4) -/

theorem getLast?_cons_eq {α : Type} : ∀ (a : α) (l : List α),
    (a :: l).getLast? = some (l.getLastD a)
  | _, [] => rfl
  | a, b :: l => by
    rw [List.getLast?_cons_cons, getLast?_cons_eq b l]
    cases l <;> simp [List.getLastD]

theorem getLastD_map {α β : Type} (f : α → β) : ∀ (l : List α) (d : α),
    f (l.getLastD d) = (l.map f).getLastD (f d)
  | [], _ => rfl
  | a :: l, d => by
    rw [List.map_cons, getLastD_cons_eq, getLastD_cons_eq, getLastD_map f l a]

/-- The status at loop exit is the last lock-guarded snapshot (or the
entry status when the loop published nothing). -/
theorem loopRun_final_eq (process : FileInfo → ItemOutcome) (stopSet : Nat → Bool) :
    ∀ (files : List FileInfo) (i : Nat) (results : List ResultRecord)
      (ps : ProcessingStatus),
      (loopRun process stopSet files i results ps).final
        = (loopRun process stopSet files i results ps).snaps.getLastD ps
  | [], _, _, _ => rfl
  | f :: rest, i, results, ps => by
    by_cases h0 : stopSet i
    · simp [loopRun, h0]
    · cases hr : itemRecord process f with
      | none => simp [loopRun, h0, hr]
      | some r =>
        simp only [loopRun, h0, Bool.false_eq_true, if_false, hr]
        rw [getLastD_cons_eq, getLastD_cons_eq]
        exact loopRun_final_eq process stopSet rest (i + 1) (results ++ [r]) _

/-- Counter invariant of the loop: every status published under the lock
during the loop satisfies `completed ≤ total`, provided it held on entry
and the remaining documents fit in `total`. -/
theorem loopRun_completed_le (process : FileInfo → ItemOutcome) (stopSet : Nat → Bool) :
    ∀ (files : List FileInfo) (i : Nat) (results : List ResultRecord)
      (ps : ProcessingStatus),
      ps.completed ≤ ps.total → results.length + files.length ≤ ps.total →
      ∀ q ∈ (loopRun process stopSet files i results ps).snaps, q.completed ≤ q.total
  | [], _, _, _, _, _ => by simp [loopRun]
  | f :: rest, i, results, ps, hle, hfit => by
    by_cases h0 : stopSet i
    · simp [loopRun, h0]
      exact hle
    · cases hr : itemRecord process f with
      | none =>
        simp [loopRun, h0, hr]
        exact hle
      | some r =>
        simp only [loopRun, h0, Bool.false_eq_true, if_false, hr]
        intro q hq
        simp only [List.mem_cons] at hq
        rcases hq with rfl | rfl | hq
        · exact hle
        · simp only [List.length_append, List.length_cons, List.length_nil]
          simp only [List.length_cons] at hfit
          omega
        · refine loopRun_completed_le process stopSet rest (i + 1) (results ++ [r])
            _ ?_ ?_ q hq
          · simp only [List.length_append, List.length_cons, List.length_nil]
            simp only [List.length_cons] at hfit
            omega
          · simp only [List.length_append, List.length_cons, List.length_nil]
            simp only [List.length_cons] at hfit
            omega

/-- Monotonicity of the published `completed` counter along the loop's
lock-guarded snapshots. -/
theorem loopRun_chain (process : FileInfo → ItemOutcome) (stopSet : Nat → Bool) :
    ∀ (files : List FileInfo) (i : Nat) (results : List ResultRecord)
      (ps : ProcessingStatus),
      ps.completed = results.length →
      List.Chain' (fun a b => a.completed ≤ b.completed)
        (ps :: (loopRun process stopSet files i results ps).snaps)
  | [], _, _, _, _ => List.chain'_singleton _
  | f :: rest, i, results, ps, hc => by
    by_cases h0 : stopSet i
    · simp [loopRun, h0]
    · cases hr : itemRecord process f with
      | none =>
        simp [loopRun, h0, hr]
      | some r =>
        simp only [loopRun, h0, Bool.false_eq_true, if_false, hr]
        rw [List.chain'_cons, List.chain'_cons]
        refine ⟨le_refl _, ?_, ?_⟩
        · simp [hc]
        · exact loopRun_chain process stopSet rest (i + 1) (results ++ [r]) _ (by simp)

/-- The body states of a committing run (non-empty listing, no escaping
fault), written out explicitly. -/
theorem pipelineBody_commit (files : List FileInfo) (process : FileInfo → ItemOutcome)
    (stopSet : Nat → Bool) (st : AppState) (hne : files ≠ [])
    (hok : (loopRun process stopSet files 0 [] { st.status with total := files.length }).faulted
      = false) :
    pipelineBody (.ok files) process stopSet st =
      ({ st with status := { st.status with total := files.length } } ::
        (loopRun process stopSet files 0 [] { st.status with total := files.length }).snaps.map
          (fun ps => ⟨ps, st.summaries⟩)) ++
      [⟨(loopRun process stopSet files 0 [] { st.status with total := files.length }).final, []⟩,
       ⟨(loopRun process stopSet files 0 [] { st.status with total := files.length }).final,
        (loopRun process stopSet files 0 [] { st.status with total := files.length }).results⟩] := by
  unfold pipelineBody
  simp [List.isEmpty_eq_false.mpr hne, hok]

/-- The body states of a run aborted by an uncaught fault in the loop. -/
theorem pipelineBody_fault (files : List FileInfo) (process : FileInfo → ItemOutcome)
    (stopSet : Nat → Bool) (st : AppState) (hne : files ≠ [])
    (hflt : (loopRun process stopSet files 0 [] { st.status with total := files.length }).faulted
      = true) :
    pipelineBody (.ok files) process stopSet st =
      { st with status := { st.status with total := files.length } } ::
        (loopRun process stopSet files 0 [] { st.status with total := files.length }).snaps.map
          (fun ps => ⟨ps, st.summaries⟩) := by
  unfold pipelineBody
  simp [List.isEmpty_eq_false.mpr hne, hflt]

/-- Status snapshots of a committing run, written out explicitly. -/
theorem pipelineStatuses_commit (files : List FileInfo) (process : FileInfo → ItemOutcome)
    (stopSet : Nat → Bool) (st : AppState) (hne : files ≠ [])
    (hok : (loopRun process stopSet files 0 [] { st.status with total := files.length }).faulted
      = false) :
    (pipelineStates (.ok files) process stopSet st).map (fun a => a.status) =
      (st.status :: { st.status with total := files.length } ::
        (loopRun process stopSet files 0 [] { st.status with total := files.length }).snaps) ++
      [(loopRun process stopSet files 0 [] { st.status with total := files.length }).final,
       (loopRun process stopSet files 0 [] { st.status with total := files.length }).final,
       { (loopRun process stopSet files 0 [] { st.status with total := files.length }).final with
          is_running := false, current_file := "" }] := by
  simp only [pipelineStates]
  rw [pipelineBody_commit files process stopSet st hne hok]
  rw [show ∀ (x : AppState) l c e, ((x :: l) ++ [c, e] : List AppState) = ((x :: l) ++ [c]) ++ [e]
    from fun _ _ _ _ => by simp, List.getLastD_concat]
  simp [finalize, Function.comp_def]

/-- Status snapshots of a run aborted by an uncaught fault. -/
theorem pipelineStatuses_fault (files : List FileInfo) (process : FileInfo → ItemOutcome)
    (stopSet : Nat → Bool) (st : AppState) (hne : files ≠ [])
    (hflt : (loopRun process stopSet files 0 [] { st.status with total := files.length }).faulted
      = true) :
    (pipelineStates (.ok files) process stopSet st).map (fun a => a.status) =
      (st.status :: { st.status with total := files.length } ::
        (loopRun process stopSet files 0 [] { st.status with total := files.length }).snaps) ++
      [{ ((loopRun process stopSet files 0 [] { st.status with total := files.length }).snaps.getLastD
            { st.status with total := files.length }) with
          is_running := false, current_file := "" }] := by
  simp only [pipelineStates]
  rw [pipelineBody_fault files process stopSet st hne hflt]
  rw [getLastD_cons_eq]
  rw [show ({ st with status := { st.status with total := files.length } } : AppState)
      = (fun ps => (⟨ps, st.summaries⟩ : AppState)) { st.status with total := files.length }
    from rfl]
  rw [← getLastD_map (fun ps => (⟨ps, st.summaries⟩ : AppState))]
  simp [finalize, Function.comp_def]

/-! ## Claim C4 — `completed ≤ total` and monotone `completed` -/

/-- C4: in a run started from the reset state, every status snapshot a
poller can observe satisfies `completed ≤ total` (in particular at every
snapshot taken after `total` is set nonzero), and the `completed` values
along the run's snapshots are monotonically non-decreasing — `completed`
only moves to `len(results)` after a row is appended. -/
theorem status_snapshot_invariants (listing : Except String (List FileInfo))
    (process : FileInfo → ItemOutcome) (stopSet : Nat → Bool) (st : AppState)
    (hstart : st.status = startedStatus) :
    (∀ q ∈ (pipelineStates listing process stopSet st).map (fun a => a.status),
        q.completed ≤ q.total) ∧
    List.Chain' (fun a b => a.completed ≤ b.completed)
      ((pipelineStates listing process stopSet st).map (fun a => a.status)) := by
  obtain ⟨sts, sums⟩ := st
  have hs : sts = startedStatus := hstart
  subst hs
  cases listing with
  | error e =>
    refine ⟨?_, ?_⟩ <;>
      simp [pipelineStates, pipelineBody, finalize, startedStatus, List.chain'_cons,
        List.chain'_singleton]
  | ok files =>
    rcases files with _ | ⟨f, rest⟩
    · refine ⟨?_, ?_⟩ <;>
        simp [pipelineStates, pipelineBody, finalize, startedStatus, List.chain'_cons,
          List.chain'_singleton]
    · have hne : f :: rest ≠ [] := by simp
      have hsnaps : ∀ q ∈ (loopRun process stopSet (f :: rest) 0 []
            { startedStatus with total := (f :: rest).length }).snaps,
          q.completed ≤ q.total :=
        loopRun_completed_le process stopSet (f :: rest) 0 []
          { startedStatus with total := (f :: rest).length }
          (Nat.zero_le _) (by simp)
      have hginv : ((loopRun process stopSet (f :: rest) 0 []
            { startedStatus with total := (f :: rest).length }).snaps.getLastD
              { startedStatus with total := (f :: rest).length }).completed ≤
          ((loopRun process stopSet (f :: rest) 0 []
            { startedStatus with total := (f :: rest).length }).snaps.getLastD
              { startedStatus with total := (f :: rest).length }).total :=
        getLastD_pred _ _ hsnaps (Nat.zero_le _)
      have hfin := loopRun_final_eq process stopSet (f :: rest) 0 []
        { startedStatus with total := (f :: rest).length }
      have hchain0 : List.Chain' (fun a b => a.completed ≤ b.completed)
          (startedStatus :: { startedStatus with total := (f :: rest).length } ::
            (loopRun process stopSet (f :: rest) 0 []
              { startedStatus with total := (f :: rest).length }).snaps) :=
        List.chain'_cons.mpr ⟨Nat.le_refl _,
          loopRun_chain process stopSet (f :: rest) 0 [] _ rfl⟩
      cases hb : (loopRun process stopSet (f :: rest) 0 []
          { startedStatus with total := (f :: rest).length }).faulted with
      | true =>
        rw [pipelineStatuses_fault (f :: rest) process stopSet ⟨startedStatus, sums⟩ hne hb]
        refine ⟨?_, ?_⟩
        · intro q hq
          rcases List.mem_append.mp hq with hq | hq
          · rcases List.mem_cons.mp hq with rfl | hq
            · exact Nat.le_refl _
            · rcases List.mem_cons.mp hq with rfl | hq
              · exact Nat.zero_le _
              · exact hsnaps q hq
          · rcases List.mem_cons.mp hq with rfl | hq
            · exact hginv
            · simp at hq
        · refine List.Chain'.append hchain0 (List.chain'_singleton _) ?_
          intro x hx y hy
          rw [getLast?_cons_eq, getLastD_cons_eq] at hx
          simp only [Option.mem_def, Option.some.injEq] at hx
          simp only [List.head?_cons, Option.mem_def, Option.some.injEq] at hy
          subst hx
          subst hy
          exact Nat.le_refl _
      | false =>
        rw [pipelineStatuses_commit (f :: rest) process stopSet ⟨startedStatus, sums⟩ hne hb]
        have hfs : ((loopRun process stopSet (f :: rest) 0 []
              { startedStatus with total := (f :: rest).length }).final).completed ≤
            ((loopRun process stopSet (f :: rest) 0 []
              { startedStatus with total := (f :: rest).length }).final).total := by
          rw [hfin]
          exact hginv
        refine ⟨?_, ?_⟩
        · intro q hq
          rcases List.mem_append.mp hq with hq | hq
          · rcases List.mem_cons.mp hq with rfl | hq
            · exact Nat.le_refl _
            · rcases List.mem_cons.mp hq with rfl | hq
              · exact Nat.zero_le _
              · exact hsnaps q hq
          · rcases List.mem_cons.mp hq with rfl | hq
            · exact hfs
            · rcases List.mem_cons.mp hq with rfl | hq
              · exact hfs
              · rcases List.mem_cons.mp hq with rfl | hq
                · exact hfs
                · simp at hq
        · refine List.Chain'.append hchain0 ?_ ?_
          · rw [List.chain'_cons, List.chain'_cons]
            exact ⟨Nat.le_refl _, Nat.le_refl _, List.chain'_singleton _⟩
          · intro x hx y hy
            rw [getLast?_cons_eq, getLastD_cons_eq] at hx
            simp only [Option.mem_def, Option.some.injEq] at hx
            simp only [List.head?_cons, Option.mem_def, Option.some.injEq] at hy
            subst hx
            subst hy
            rw [hfin]

/-- Witness for C4: a concrete three-document run with a failing middle
document keeps `completed ≤ total` at every observable snapshot and the
`completed` values non-decreasing. -/
theorem status_snapshot_invariants_witness :
    ((pipelineStates (.ok [⟨"1", "a"⟩, ⟨"2", "b"⟩, ⟨"3", "c"⟩])
        (fun f => if f.name = "b" then .err "boom" else .ok "S") (fun _ => false)
        ⟨startedStatus, []⟩).map (fun a => a.status)).all
          (fun q => decide (q.completed ≤ q.total)) = true ∧
    List.Chain' (fun a b => a.completed ≤ b.completed)
      ((pipelineStates (.ok [⟨"1", "a"⟩, ⟨"2", "b"⟩, ⟨"3", "c"⟩])
        (fun f => if f.name = "b" then .err "boom" else .ok "S") (fun _ => false)
        ⟨startedStatus, []⟩).map (fun a => a.status)) := by
  have H := status_snapshot_invariants (.ok [⟨"1", "a"⟩, ⟨"2", "b"⟩, ⟨"3", "c"⟩])
    (fun f => if f.name = "b" then .err "boom" else .ok "S") (fun _ => false)
    ⟨startedStatus, []⟩ rfl
  exact ⟨List.all_eq_true.mpr (fun q hq => decide_eq_true (H.1 q hq)), H.2⟩

/-! ## Claim C3 — how `_summaries` is replaced -/

/-- C3 counterexample: the claim that every observable state shows
either the previous run's complete results or the new run's complete
results is false.  In a one-document run that starts with one old row,
the commit is an unlocked `clear()` followed by `extend(results)`, so
the trace contains a state whose `_summaries` is the empty intermediate
list — neither the old result set `[⟨"a","sa"⟩]` nor the new one
`[⟨"b","sb"⟩]`. -/
theorem resultset_locked_replace_cex :
    ¬ (∀ a ∈ pipelineStates (.ok [⟨"1", "b"⟩]) (fun _ => ItemOutcome.ok "sb")
        (fun _ => false) ⟨startedStatus, [⟨"a", "sa"⟩]⟩,
      a.summaries = [⟨"a", "sa"⟩] ∨ a.summaries = [⟨"b", "sb"⟩]) := by
  decide

/-- C3 amended: the orchestrator replaces `_summaries` exactly once per
run, after the loop exits, as a `clear()` followed by an `extend` that
are not protected by the status lock: the observable `_summaries` values
along a committing run are the previous run's full results for every
state up to the commit, then the momentarily empty list between the two
commit steps, then the new run's full results — never any other
intermediate mixture. -/
theorem resultset_replaced_once (files : List FileInfo) (process : FileInfo → ItemOutcome)
    (stopSet : Nat → Bool) (st : AppState) (hne : files ≠ [])
    (hok : (loopRun process stopSet files 0 [] { st.status with total := files.length }).faulted
      = false) :
    (pipelineStates (.ok files) process stopSet st).map (fun a => a.summaries) =
      List.replicate
        ((loopRun process stopSet files 0 [] { st.status with total := files.length }).snaps.length
          + 2) st.summaries ++
      [[], (loopRun process stopSet files 0 [] { st.status with total := files.length }).results,
       (loopRun process stopSet files 0 [] { st.status with total := files.length }).results] := by
  simp only [pipelineStates]
  rw [pipelineBody_commit files process stopSet st hne hok]
  rw [show ∀ (x : AppState) l c e, ((x :: l) ++ [c, e] : List AppState) = ((x :: l) ++ [c]) ++ [e]
    from fun _ _ _ _ => by simp, List.getLastD_concat]
  simp [finalize, Function.comp_def, List.replicate_succ, List.map_const']

/-- Witness for the amended C3 on the same one-document run as the
counterexample: the observable result sets are the old row four times,
the empty intermediate list once, and the new row twice. -/
theorem resultset_replaced_once_witness :
    (pipelineStates (.ok [⟨"1", "b"⟩]) (fun _ => ItemOutcome.ok "sb")
        (fun _ => false) ⟨startedStatus, [⟨"a", "sa"⟩]⟩).map (fun a => a.summaries) =
      List.replicate 4 [⟨"a", "sa"⟩] ++ [[], [⟨"b", "sb"⟩], [⟨"b", "sb"⟩]] := by
  have H := resultset_replaced_once [⟨"1", "b"⟩] (fun _ => ItemOutcome.ok "sb")
    (fun _ => false) ⟨startedStatus, [⟨"a", "sa"⟩]⟩ (by decide) (by decide)
  exact H

/-! ## Drive listing (drive_service.py, `list_files`) -/

/-- A file entry of a Drive `files().list` response: the fields the
service keeps (`id`, `name`, `mimeType`). -/
structure DriveFile where
  id : String
  name : String
  mimeType : String
deriving DecidableEq, Repr

/-- One page of the paginated listing as returned by the remote API:
the page's file entries and whether a `nextPageToken` is present. -/
structure DrivePage where
  files : List DriveFile
  nextPageToken : Bool
deriving DecidableEq, Repr

/-- The inner `for f in response.get("files", [])` loop of `list_files`
(lines 151–165): skip ids already seen, append the entry, and break out
as soon as `len(all_files) >= max_cap`.  Returns the updated accumulator
and seen-id set. -/
def addFiles (max_cap : Nat) : List DriveFile → List String → List DriveFile →
    List DriveFile × List String
  | [], seen, acc => (acc, seen)
  | f :: fs, seen, acc =>
    if f.id ∈ seen then addFiles max_cap fs seen acc
    else
      if max_cap ≤ (acc ++ [f]).length then (acc ++ [f], f.id :: seen)
      else addFiles max_cap fs (f.id :: seen) (acc ++ [f])

/-- The outer `while True:` pagination loop of `list_files` (lines
138–172), consuming the remote's page responses in order: process the
page's entries, stop when the cap is reached, request the next page only
while a `nextPageToken` was returned. -/
def listLoop (max_cap : Nat) : List DrivePage → List String → List DriveFile → List DriveFile
  | [], _seen, acc => acc
  | page :: pages, seen, acc =>
    let step := addFiles max_cap page.files seen acc
    if max_cap ≤ step.1.length then step.1
    else if page.nextPageToken then listLoop max_cap pages step.2 step.1
    else step.1

/-- `drive_service.list_files`, as a function of the configured
`MAX_FILES_CAP` and of the sequence of page responses the remote file
API returns: the pagination loop run on empty accumulators. -/
def list_files (max_cap : Nat) (pages : List DrivePage) : List DriveFile :=
  listLoop max_cap pages [] []

/-! ## Claim C8 — the `MAX_FILES_CAP` safety cap -/

theorem addFiles_le (max_cap : Nat) :
    ∀ (fs : List DriveFile) (seen : List String) (acc : List DriveFile),
      acc.length < max_cap → (addFiles max_cap fs seen acc).1.length ≤ max_cap
  | [], _, _, h => Nat.le_of_lt h
  | f :: fs, seen, acc, h => by
    by_cases hid : f.id ∈ seen
    · simp only [addFiles, if_pos hid]
      exact addFiles_le max_cap fs seen acc h
    · simp only [addFiles, if_neg hid]
      by_cases hcap : max_cap ≤ (acc ++ [f]).length
      · simp only [if_pos hcap]
        simp only [List.length_append, List.length_cons, List.length_nil]
        omega
      · simp only [if_neg hcap]
        exact addFiles_le max_cap fs (f.id :: seen) (acc ++ [f]) (by omega)

theorem listLoop_le (max_cap : Nat) :
    ∀ (pages : List DrivePage) (seen : List String) (acc : List DriveFile),
      acc.length < max_cap → (listLoop max_cap pages seen acc).length ≤ max_cap
  | [], _, _, h => Nat.le_of_lt h
  | page :: pages, seen, acc, h => by
    simp only [listLoop]
    by_cases hcap : max_cap ≤ (addFiles max_cap page.files seen acc).1.length
    · simp only [if_pos hcap]
      exact addFiles_le max_cap page.files seen acc h
    · simp only [if_neg hcap]
      by_cases hnext : page.nextPageToken
      · simp only [if_pos hnext]
        exact listLoop_le max_cap pages _ _ (by omega)
      · simp only [if_neg hnext]
        exact addFiles_le max_cap page.files seen acc h

/-- C8 counterexample: the cap is not enforced for `max_cap = 0` — the
code appends an entry before comparing `len(all_files) >= max_cap`, so a
single-page response with one file yields a list of length 1 > 0. -/
theorem list_files_cap_cex :
    ¬ ((list_files 0 [⟨[⟨"i1", "a.pdf", "application/pdf"⟩], false⟩]).length ≤ 0) := by
  decide

/-- C8 amended: for every configured cap of at least 1 and every
sequence of listing pages returned by the remote file API, `list_files`
returns at most `max_cap` entries — the loop stops requesting further
pages once the cap is reached. -/
theorem list_files_le_cap (max_cap : Nat) (pages : List DrivePage) (h : 1 ≤ max_cap) :
    (list_files max_cap pages).length ≤ max_cap :=
  listLoop_le max_cap pages [] [] (by simpa using h)

/-- Witness for the amended C8: cap 2 over two pages of two files each
(with one duplicate id) yields at most 2 entries. -/
theorem list_files_le_cap_witness :
    (list_files 2 [⟨[⟨"i1", "a.pdf", "application/pdf"⟩, ⟨"i1", "a.pdf", "application/pdf"⟩],
        true⟩, ⟨[⟨"i2", "b.txt", "text/plain"⟩, ⟨"i3", "c.docx", "d"⟩], false⟩]).length ≤ 2 :=
  list_files_le_cap 2 [⟨[⟨"i1", "a.pdf", "application/pdf"⟩, ⟨"i1", "a.pdf", "application/pdf"⟩],
      true⟩, ⟨[⟨"i2", "b.txt", "text/plain"⟩, ⟨"i3", "c.docx", "d"⟩], false⟩] (by decide)

/-! ## Summarization (summary_service.py) -/

/-- The whitespace characters stripped by Python `str.strip()` (ASCII
range, as relevant to the embedded strings). -/
def isPySpace (c : Char) : Bool :=
  c = ' ' || c = '\t' || c = '\n' || c = '\r' || c = '\x0b' || c = '\x0c'

/-- Python `s.strip()` on a string modelled as a character list. -/
def pyStripL (cs : List Char) : List Char :=
  ((cs.dropWhile isPySpace).reverse.dropWhile isPySpace).reverse

/-- Python `text.rfind(sep, 0, limit)`: the greatest index below
`limit` at which `sep` occurs in `cs`, if any. -/
def rfindIn (cs : List Char) (sep : Char) (limit : Nat) : Option Nat :=
  match (cs.take limit).reverse.findIdx? (fun c => c = sep) with
  | some j => some ((cs.take limit).length - 1 - j)
  | none => none

/-- The split position chosen by one iteration of `_chunk_text`'s loop
(lines 76–82): one past the last sentence-ending punctuation found
within the limit — trying ".", then "!", then "?" — or `max_chars` when
none is found. -/
def splitIdx (cs : List Char) (max_chars : Nat) : Nat :=
  match rfindIn cs '.' max_chars with
  | some idx => idx + 1
  | none =>
    match rfindIn cs '!' max_chars with
    | some idx => idx + 1
    | none =>
      match rfindIn cs '?' max_chars with
      | some idx => idx + 1
      | none => max_chars

theorem pyStripL_length_le (cs : List Char) : (pyStripL cs).length ≤ cs.length := by
  unfold pyStripL
  calc ((cs.dropWhile isPySpace).reverse.dropWhile isPySpace).reverse.length
      ≤ (cs.dropWhile isPySpace).reverse.length := by
        rw [List.length_reverse]
        exact (List.dropWhile_sublist _).length_le
    _ ≤ cs.length := by
        rw [List.length_reverse]
        exact (List.dropWhile_sublist _).length_le

theorem findIdx?_bound {α : Type} (p : α → Bool) :
    ∀ (l : List α) (j : Nat), l.findIdx? p = some j → j < l.length := by
  intro l
  induction l with
  | nil => intro j h; simp [List.findIdx?] at h
  | cons a l ih =>
    intro j h
    rw [List.findIdx?_cons] at h
    by_cases hp : p a
    · simp [hp] at h
      simp [← h]
    · simp [hp] at h
      obtain ⟨m, hm, rfl⟩ := h
      have := ih m hm
      simp
      omega

theorem rfindIn_succ_le (cs : List Char) (sep : Char) (limit : Nat) (i : Nat)
    (h : rfindIn cs sep limit = some i) : i + 1 ≤ limit := by
  unfold rfindIn at h
  cases hf : (cs.take limit).reverse.findIdx? (fun c => c = sep) with
  | none => rw [hf] at h; exact absurd h (by simp)
  | some j =>
    rw [hf] at h
    have hj := findIdx?_bound _ _ j hf
    rw [List.length_reverse] at hj
    have hlen : (cs.take limit).length ≤ limit := by
      rw [List.length_take]
      omega
    simp only [Option.some.injEq] at h
    omega

theorem splitIdx_le (cs : List Char) (max_chars : Nat) :
    splitIdx cs max_chars ≤ max_chars := by
  unfold splitIdx
  cases h1 : rfindIn cs '.' max_chars with
  | some idx => exact rfindIn_succ_le cs '.' max_chars idx h1
  | none =>
    cases h2 : rfindIn cs '!' max_chars with
    | some idx => exact rfindIn_succ_le cs '!' max_chars idx h2
    | none =>
      cases h3 : rfindIn cs '?' max_chars with
      | some idx => exact rfindIn_succ_le cs '?' max_chars idx h3
      | none => exact Nat.le_refl _

theorem splitIdx_pos (cs : List Char) (max_chars : Nat) (hm : 1 ≤ max_chars) :
    1 ≤ splitIdx cs max_chars := by
  unfold splitIdx
  cases h1 : rfindIn cs '.' max_chars with
  | some idx => exact Nat.le_add_left 1 idx
  | none =>
    cases h2 : rfindIn cs '!' max_chars with
    | some idx => exact Nat.le_add_left 1 idx
    | none =>
      cases h3 : rfindIn cs '?' max_chars with
      | some idx => exact Nat.le_add_left 1 idx
      | none => exact hm

/-- The `while text:` loop of `_chunk_text` (lines 70–87): emit the full
remainder when it fits, otherwise split at `splitIdx`, strip both sides,
and continue on the stripped remainder.  The loop terminates because for
`max_chars ≥ 1` each iteration strictly shortens the remaining text. -/
def chunkLoop (max_chars : Nat) (hm : 1 ≤ max_chars) (cs : List Char) : List (List Char) :=
  if cs.isEmpty then []
  else if _h : cs.length ≤ max_chars then [cs]
  else
    pyStripL (cs.take (splitIdx cs max_chars)) ::
      chunkLoop max_chars hm (pyStripL (cs.drop (splitIdx cs max_chars)))
termination_by cs.length
decreasing_by
  have h1 := splitIdx_pos cs max_chars hm
  have h2 := pyStripL_length_le (cs.drop (splitIdx cs max_chars))
  rw [List.length_drop] at h2
  omega

/-- `summary_service._chunk_text`: return the whole text unchanged when
it fits in one chunk (lines 67–68), otherwise run the splitting loop. -/
def _chunk_text (text : List Char) (max_chars : Nat) (hm : 1 ≤ max_chars) :
    List (List Char) :=
  if text.length ≤ max_chars then [text]
  else chunkLoop max_chars hm text

/-! ## Claim C10 — `_chunk_text` terminates and respects the budget -/

theorem chunkLoop_le (max_chars : Nat) (hm : 1 ≤ max_chars) :
    ∀ (n : Nat) (cs : List Char), cs.length ≤ n →
      ∀ c ∈ chunkLoop max_chars hm cs, c.length ≤ max_chars
  | 0, cs, hn => by
    have : cs = [] := List.length_eq_zero.mp (Nat.le_zero.mp hn)
    subst this
    simp [chunkLoop]
  | n + 1, cs, hn => by
    rw [chunkLoop]
    by_cases h0 : cs.isEmpty
    · simp [h0]
    · rw [if_neg h0]
      by_cases h1 : cs.length ≤ max_chars
      · rw [dif_pos h1]
        intro c hc
        rw [List.mem_singleton] at hc
        subst hc
        exact h1
      · rw [dif_neg h1]
        intro c hc
        rcases List.mem_cons.mp hc with rfl | hc
        · calc (pyStripL (cs.take (splitIdx cs max_chars))).length
              ≤ (cs.take (splitIdx cs max_chars)).length := pyStripL_length_le _
            _ ≤ splitIdx cs max_chars := by
                rw [List.length_take]
                omega
            _ ≤ max_chars := splitIdx_le cs max_chars
        · refine chunkLoop_le max_chars hm n (pyStripL (cs.drop (splitIdx cs max_chars))) ?_ c hc
          have h2 := pyStripL_length_le (cs.drop (splitIdx cs max_chars))
          have h3 := splitIdx_pos cs max_chars hm
          rw [List.length_drop] at h2
          omega

/-- C10: for `max_chars ≥ 1`, each iteration of `_chunk_text`'s loop
strictly shortens the remaining text (so the `while text:` loop
terminates), and every chunk in the returned list has length at most
`max_chars`. -/
theorem chunk_text_terminates_and_bounded (text : List Char) (max_chars : Nat)
    (hm : 1 ≤ max_chars) :
    (∀ cs : List Char, max_chars < cs.length →
        (pyStripL (cs.drop (splitIdx cs max_chars))).length < cs.length) ∧
    (∀ c ∈ _chunk_text text max_chars hm, c.length ≤ max_chars) := by
  constructor
  · intro cs hlen
    have h1 := splitIdx_pos cs max_chars hm
    have h2 := pyStripL_length_le (cs.drop (splitIdx cs max_chars))
    rw [List.length_drop] at h2
    omega
  · intro c hc
    unfold _chunk_text at hc
    by_cases h1 : text.length ≤ max_chars
    · rw [if_pos h1, List.mem_singleton] at hc
      subst hc
      exact h1
    · rw [if_neg h1] at hc
      exact chunkLoop_le max_chars hm text.length text (Nat.le_refl _) c hc

/-- Witness for C10 at `max_chars = 5` on a three-sentence text: every
chunk produced fits in 5 characters. -/
theorem chunk_text_bounded_witness :
    ((_chunk_text ("One. Two! Three?".toList) 5 (Nat.le_add_left 1 4)).all
      (fun c => decide (c.length ≤ 5))) = true := by
  have H := chunk_text_terminates_and_bounded ("One. Two! Three?".toList) 5
    (Nat.le_add_left 1 4)
  exact List.all_eq_true.mpr (fun c hc => decide_eq_true (H.2 c hc))

/-! ## Claim C9 — empty text short-circuits summarization -/

/-- `_MAX_CHUNK_CHARS` of summary_service.py. -/
def _MAX_CHUNK_CHARS : Nat := 10000

theorem one_le_max_chunk_chars : 1 ≤ _MAX_CHUNK_CHARS := Nat.le_add_left 1 9999

/-- The per-chunk Groq calls of `summarize_text`'s multi-chunk path
(lines 163–167): call the model on every chunk in order, stopping at the
first failure.  Returns the partial summaries (or the first failure) and
the number of remote calls made.  `groq` models `_call_groq`; `tpl`
models `_PROMPT_TEMPLATE.format(document_text=...)`. -/
def callChunks (groq : String → Except String String) (tpl : String → String) :
    List (List Char) → Except String (List String) × Nat
  | [] => (.ok [], 0)
  | c :: cs =>
    match groq (tpl (String.mk c)) with
    | .error e => (.error e, 1)
    | .ok s =>
      match callChunks groq tpl cs with
      | (.error e, n) => (.error e, n + 1)
      | (.ok ss, n) => (.ok (s :: ss), n + 1)

/-- `summary_service.summarize_text`: the placeholder row for text that
is empty after stripping (lines 147–149, no remote call), otherwise the
single-chunk path (one call) or the multi-chunk path (one call per chunk
plus one combining call on the partial summaries joined by a blank
line).  A `RuntimeError` from `_call_groq` propagates to the caller.
The second component counts the remote model calls performed. -/
def summarize_text (groq : String → Except String String) (tpl : String → String)
    (file_name text : String) : Except String ResultRecord × Nat :=
  if (pyStripL text.toList).isEmpty then
    (.ok ⟨file_name, "No content available for summarization."⟩, 0)
  else
    match _chunk_text text.toList _MAX_CHUNK_CHARS one_le_max_chunk_chars with
    | [c] =>
      (match groq (tpl (String.mk c)) with
       | .ok s => (.ok ⟨file_name, s⟩, 1)
       | .error e => (.error e, 1))
    | chunks =>
      match callChunks groq tpl chunks with
      | (.error e, n) => (.error e, n)
      | (.ok ss, n) =>
        match groq (tpl (String.intercalate "\n\n" ss)) with
        | .ok s => (.ok ⟨file_name, s⟩, n + 1)
        | .error e => (.error e, n + 1)

/-- C9: for every file name and every input text whose content is empty
after stripping whitespace, `summarize_text` returns the fixed
placeholder row "No content available for summarization." and performs
zero remote model calls, whatever the remote model would answer. -/
theorem summarize_text_empty (groq : String → Except String String)
    (tpl : String → String) (file_name text : String)
    (h : (pyStripL text.toList).isEmpty = true) :
    summarize_text groq tpl file_name text =
      (.ok ⟨file_name, "No content available for summarization."⟩, 0) := by
  unfold summarize_text
  rw [if_pos h]

/-- Witness for C9: whitespace-only text produces the placeholder row
and zero calls even against a model oracle that always fails. -/
theorem summarize_text_empty_witness :
    summarize_text (fun _ => .error "unreachable") (fun s => s) "doc.pdf" "  \t\n  " =
      (.ok ⟨"doc.pdf", "No content available for summarization."⟩, 0) :=
  summarize_text_empty (fun _ => .error "unreachable") (fun s => s) "doc.pdf" "  \t\n  "
    (by decide)
